import Mathlib

/-!
Verification development for the `tectonopedia-ng` backend.

The Rust sources embedded here:
  - `src/backend/src/bin/ttpedia_nexusserver.rs` — the Nexus server:
    `post_pass1_handler`, `post_assets_uploaded_handler`, the index
    key/value byte encoding and `maybe_slice_to_str_or_default`;
  - `src/backend/src/bin/ttpedia_compilerworker.rs` — the compiler worker:
    `CompileState::pass2` input construction and
    `CompileState::upload_to_bucket`;
  - `src/backend/src/bin/ttpedia_reposerver.rs` — `post_submit_handler`;
  - `src/backend/src/lib.rs` — request/response schemas.

External collaborators (the TeX engine, LMDB, the object store, the queue,
samod/automerge, HTTP transport) are modelled as oracles or opaque type
parameters, exactly at the boundaries where the sources call them.
-/

/-! ## Generic string / byte helpers -/

/-- Rust `<[u8]>::starts_with` / the "begins with" relation on strings,
computed on the underlying character lists. -/
def strBegins (p s : String) : Bool := p.data.isPrefixOf s.data

/-- Rust `str::strip_prefix` on character lists: `stripPre p s` removes the
leading sequence `p` from `s`, returning `none` when `p` is not a prefix. -/
def stripPre : List Char → List Char → Option (List Char)
  | [], s => some s
  | _ :: _, [] => none
  | p :: ps, c :: cs => if p = c then stripPre ps cs else none

/-- Rust `str::strip_suffix` on character lists, implemented by reversing
and stripping the reversed suffix from the front. -/
def stripSuf (suf s : List Char) : Option (List Char) :=
  (stripPre suf.reverse s.reverse).map List.reverse

/-- Rust `str::ends_with`, computed by checking the reversed strings. -/
def strEnds (suf s : String) : Bool := suf.data.reverse.isPrefixOf s.data.reverse

/-! ## Metadatum stream (shared `metadata` module)

The `metadata` module of `ttpedia_backend` is declared in
`src/backend/src/lib.rs` (`pub mod metadata;`) but its file is not part of
the sources provided; the shape of `Metadatum` below is read off the
exhaustive `match` in `post_pass1_handler`
(`ttpedia_nexusserver.rs:227-300`), which names every variant and field.
The handler consumes the already-parsed stream, so the line parser itself
is not needed here: the embedding operates on `List Metadatum`. -/

/-- One parsed line of the `pedia.txt` metadatum stream, as consumed by the
`match` in `post_pass1_handler`. -/
inductive Metadatum where
  | indexRef (index entry : String) (flags : Nat)
  | indexDef (index entry fragment : String)
  | indexText (index entry tex atplain : String)
  | output (o : String)
deriving DecidableEq

/-- Modelled from the spec: the `IndexRefFlag::NeedsLoc` bit of the missing
`metadata` module. The spec describes `IndexRef` as carrying "a bitmask of
required fields (`NeedsLoc`, `NeedsText`)"; the concrete bit value is not
recoverable from the provided sources, so the two flags are modelled as
distinct single bits. -/
def needsLoc : Nat := 1

/-- Modelled from the spec: the `IndexRefFlag::NeedsText` bit of the missing
`metadata` module (see `needsLoc`). -/
def needsText : Nat := 2

/-! ## Nexus cross-reference index: byte-level encoding

`post_pass1_handler` stores index data in LMDB under binary keys
`0x80 || index-utf8 || 0x00 || entry-utf8` with values
`entry-utf8 || 0x00 || fragment-utf8 || 0x00 || atplain-utf8 || 0x00 || tex-utf8`
(`ttpedia_nexusserver.rs:233-241` and `:305-321`). Bytes are modelled as
`Nat`. -/

/-- UTF-8 encoding of a single character (the encoding underlying Rust
`String::into_bytes` / `str::as_bytes`). -/
def utf8Bytes (c : Char) : List Nat :=
  let v := c.toNat
  if v < 0x80 then [v]
  else if v < 0x800 then [0xC0 + v / 64, 0x80 + v % 64]
  else if v < 0x10000 then [0xE0 + v / 4096, 0x80 + v / 64 % 64, 0x80 + v % 64]
  else [0xF0 + v / 0x40000, 0x80 + v / 4096 % 64, 0x80 + v / 64 % 64, 0x80 + v % 64]

/-- The UTF-8 bytes of a string (Rust `String::into_bytes`). -/
def strBytes (s : String) : List Nat := s.data.flatMap utf8Bytes

/-- `INDEX_DEF_MARKER` (`ttpedia_nexusserver.rs:152`). -/
def INDEX_DEF_MARKER : Nat := 0x80

/-- `MISSING_REF` (`ttpedia_nexusserver.rs:153`): the value used for a key
absent from the index database. -/
def MISSING_REF : List Nat := [0, 0]

/-- The binary index key built in `post_pass1_handler`
(`ttpedia_nexusserver.rs:233-236` and `:306-309`):
`0x80 || index || 0x00 || entry`. -/
def encodeIndexKey (index entry : List Nat) : List Nat :=
  INDEX_DEF_MARKER :: index ++ 0 :: entry

/-- The binary index value built in `post_pass1_handler`
(`ttpedia_nexusserver.rs:311-317`): four fields separated by `0x00`. -/
def encodeIndexValue (e f p t : List Nat) : List Nat :=
  e ++ 0 :: f ++ 0 :: p ++ 0 :: t

/-- Rust `<[u8]>::split(|b| *b == 0)` (`ttpedia_nexusserver.rs:239`):
splits a byte string at every `0x00`, yielding the (possibly empty)
chunks between separators. -/
def splitZero : List Nat → List (List Nat)
  | [] => [[]]
  | 0 :: rest => [] :: splitZero rest
  | (b + 1) :: rest =>
    match splitZero rest with
    | [] => [[b + 1]]
    | g :: gs => ((b + 1) :: g) :: gs

/-- The LMDB sub-database `index`, modelled as an association list from
byte keys to byte values. -/
def Db : Type := List (List Nat × List Nat)

/-- LMDB `txn.get` on the model database. -/
def dbGet : Db → List Nat → Option (List Nat)
  | [], _ => none
  | (k', v') :: rest, k => if k' = k then some v' else dbGet rest k

/-- LMDB `txn.put` on the model database: replaces the value under an
existing key, otherwise inserts. -/
def dbPut : Db → List Nat → List Nat → Db
  | [], k, v => [(k, v)]
  | (k', v') :: rest, k, v =>
    if k' = k then (k, v) :: rest else (k', v') :: dbPut rest k v

/-! ## Nexus cross-reference processing (`post_pass1_handler`, string level)

The handler body (`ttpedia_nexusserver.rs:212-326`) is embedded at the
string level: the database is a map from `IndexKey` to the four stored
string fields. This is the image of the byte-level store under
`encodeIndexKey` / `encodeIndexValue` — which is faithful for fields free
of the byte `0x00` (neither keys nor values may contain `0x00`; the
round-trip is proved below for claim C6). A stored field that is the empty
string corresponds to an empty byte slice, the case in which
`maybe_slice_to_str_or_default` substitutes the default. -/

/-- `IndexKey` (`ttpedia_nexusserver.rs:129-142`). -/
structure IndexKey where
  index : String
  entry : String
deriving DecidableEq

/-- `IndexValue` (`ttpedia_nexusserver.rs:144-150`): the staged,
still-optional fields accumulated in the request's `defs` map. -/
structure IndexValue where
  entry : Option String
  fragment : Option String
  atplain : Option String
  tex : Option String
deriving DecidableEq

/-- `IndexValue::default()`: all four fields unset. -/
def IndexValue.dflt : IndexValue := ⟨none, none, none, none⟩

/-- A committed database value: the four concrete string fields, each the
result of `unwrap_or_default()` at write time
(`ttpedia_nexusserver.rs:311-317`). -/
structure StoredVal where
  entry : String
  fragment : String
  atplain : String
  tex : String
deriving DecidableEq

/-- The string-level view of the `index` database. -/
def Store : Type := IndexKey → Option StoredVal

/-- The database with no committed index definitions. -/
def emptyStore : Store := fun _ => none

/-- `maybe_slice_to_str_or_default` (`ttpedia_nexusserver.rs:155-168`) at
the string level: a missing or empty stored field is replaced by the
default. (The byte-level `Err(_) => default` arm is unreachable for values
committed from Rust `String`s, which are valid UTF-8.) -/
def maybe_slice_to_str_or_default : Option String → String → String
  | none, d => d
  | some s, d => if s = "" then d else s

/-- One emitted line of `resolved_reference_tex`, in structured form:
the `**loc`, `**text tex` and `**text plain` definitions written by
`post_pass1_handler` (`ttpedia_nexusserver.rs:246-272`). `body` is the
text between the braces. -/
inductive RRLine where
  | loc (index entry body : String)
  | textTex (index entry body : String)
  | textPlain (index entry body : String)
deriving DecidableEq

/-- Renders a structured line to the literal TeX emitted by the handler's
`writeln!` calls, `\n`-terminated. -/
def renderRRLine : RRLine → String
  | .loc index entry body =>
    "\\expandafter\\def\\csname pedia resolve**" ++ index ++ "**" ++ entry ++
      "**loc\\endcsname\x7b" ++ body ++ "\x7d\n"
  | .textTex index entry body =>
    "\\expandafter\\def\\csname pedia resolve**" ++ index ++ "**" ++ entry ++
      "**text tex\\endcsname\x7b" ++ body ++ "\x7d\n"
  | .textPlain index entry body =>
    "\\expandafter\\def\\csname pedia resolve**" ++ index ++ "**" ++ entry ++
      "**text plain\\endcsname\x7b" ++ body ++ "\x7d\n"

/-- The full `resolved_reference_tex` string for a list of emitted lines. -/
def renderRR (ls : List RRLine) : String := String.join (ls.map renderRRLine)

/-- The lines appended to `rrtex` for one `IndexRef`
(`ttpedia_nexusserver.rs:228-274`): the stored value is looked up in the
database (`MISSING_REF`, i.e. all fields empty, when absent); a `**loc`
line is emitted when `NeedsLoc` is set, and the two `**text` lines when
`NeedsText` is set, with `maybe_slice_to_str_or_default` supplying the
defaults `"ENTRYREF"`, `""`, `entry`, `entry` respectively. -/
def refLines (store : Store) (index entry : String) (flags : Nat) : List RRLine :=
  let sv := store ⟨index, entry⟩
  (if flags &&& needsLoc ≠ 0 then
    [RRLine.loc index entry
      (maybe_slice_to_str_or_default (sv.map StoredVal.entry) "ENTRYREF" ++
        maybe_slice_to_str_or_default (sv.map StoredVal.fragment) "")]
  else []) ++
  (if flags &&& needsText ≠ 0 then
    [RRLine.textTex index entry
      (maybe_slice_to_str_or_default (sv.map StoredVal.tex) entry),
     RRLine.textPlain index entry
      (maybe_slice_to_str_or_default (sv.map StoredVal.atplain) entry)]
  else [])

/-- The `Output(o)` handling (`ttpedia_nexusserver.rs:297-299`):
`o.strip_prefix("entry-").and_then(|s| s.strip_suffix(".html")).unwrap_or_default()`. -/
def outputStem (o : String) : String :=
  match stripPre "entry-".data o.data with
  | none => ""
  | some r =>
    match stripSuf ".html".data r with
    | none => ""
    | some stem => ⟨stem⟩

/-- The per-request mutable state of the cross-reference loop
(`ttpedia_nexusserver.rs:218-222`): `current_entry`, the `defs` map of
staged definitions, and the accumulated `rrtex` lines. -/
structure Pass1St where
  current_entry : String
  defs : IndexKey → Option IndexValue
  lines : List RRLine

/-- Pointwise update of the staged `defs` map (Rust
`HashMap::entry(..).or_default()` followed by field assignment). -/
def setDefs (defs : IndexKey → Option IndexValue) (k : IndexKey) (v : IndexValue) :
    IndexKey → Option IndexValue :=
  fun k' => if k' = k then some v else defs k'

/-- Processing of one metadatum line by the loop in `post_pass1_handler`
(`ttpedia_nexusserver.rs:224-301`). Note that `IndexRef` reads the
database transaction (`store`), not the staged `defs`. -/
def processLine (store : Store) (st : Pass1St) : Metadatum → Pass1St
  | .indexRef index entry flags =>
    { st with lines := st.lines ++ refLines store index entry flags }
  | .indexDef index entry fragment =>
    let k : IndexKey := ⟨index, entry⟩
    let v := (st.defs k).getD IndexValue.dflt
    let v' := { v with entry := some st.current_entry, fragment := some fragment }
    { st with defs := setDefs st.defs k v' }
  | .indexText index entry tex atplain =>
    let k : IndexKey := ⟨index, entry⟩
    let v := (st.defs k).getD IndexValue.dflt
    let v' := { v with atplain := some atplain, tex := some tex }
    { st with defs := setDefs st.defs k v' }
  | .output o =>
    { st with current_entry := outputStem o }

/-- The whole line loop of `post_pass1_handler`. -/
def processLines (store : Store) (st : Pass1St) : List Metadatum → Pass1St
  | [] => st
  | m :: ms => processLines store (processLine store st m) ms

/-- Commit of one staged value (`ttpedia_nexusserver.rs:311-317`): every
unset field is written as the empty string (`unwrap_or_default`). -/
def freeze (v : IndexValue) : StoredVal :=
  ⟨v.entry.getD "", v.fragment.getD "", v.atplain.getD "", v.tex.getD ""⟩

/-- The commit loop (`ttpedia_nexusserver.rs:305-323`): every staged key
is written to the database with `txn.put` (overwriting any previous
value), then the transaction commits. -/
def commitDefs (store : Store) (defs : IndexKey → Option IndexValue) : Store :=
  fun k =>
    match defs k with
    | some v => some (freeze v)
    | none => store k

/-- The cross-reference part of `post_pass1_handler` for one request
(`ttpedia_nexusserver.rs:212-326`): returns the emitted
`resolved_reference_tex` lines and the committed database. -/
def pass1Xrefs (store : Store) (ms : List Metadatum) : List RRLine × Store :=
  let st := processLines store ⟨"", fun _ => none, []⟩ ms
  (st.lines, commitDefs store st.defs)

/-- The `current_entry` value after a list of lines, starting from `init`:
only `Output` lines change it (`ttpedia_nexusserver.rs:297-299`). -/
def curEntryAfter (init : String) : List Metadatum → String
  | [] => init
  | m :: ms =>
    curEntryAfter (match m with | .output o => outputStem o | _ => init) ms

/-! ## Nexus asset state (`AssetState`, `ttpedia_nexusserver.rs:115-120`)

`AssetSpecification` lives in the external `tectonic_engine_spx2html`
crate and is opaque here: the state is polymorphic in the specification
type `A`, and `add_from_saved` / `save` are supplied as oracles with the
Rust signatures' shapes (`add_from_saved` can fail with a
parse-or-conflict error). -/

/-- `AssetState` (`ttpedia_nexusserver.rs:115-120`). -/
structure AssetState (A : Type) where
  cur_assets : A
  cur_seqnum : Nat
  cur_bucket_key : String
  next_proposed_seqnum : Nat
deriving DecidableEq

/-- The initial asset state built in `Args::exec`
(`ttpedia_nexusserver.rs:66-72`): `cur_seqnum = 0`,
`next_proposed_seqnum = 1`. -/
def initAssetState {A : Type} (a : A) : AssetState A :=
  ⟨a, 0, "FIXME-get-from-storage", 1⟩

/-- `NexusPostAssetsUploadedRequest` (`src/backend/src/lib.rs:49-57`). -/
structure NexusPostAssetsUploadedRequest where
  seq_num : Nat
  bucket_key : String
deriving DecidableEq

/-- `post_assets_uploaded_handler` (`ttpedia_nexusserver.rs:341-358`):
under the asset-state lock, a request with `seq_num > cur_seqnum` replaces
`cur_bucket_key` and `cur_seqnum`; anything else is ignored. -/
def post_assets_uploaded {A : Type} (st : AssetState A)
    (req : NexusPostAssetsUploadedRequest) : AssetState A :=
  if req.seq_num > st.cur_seqnum then
    { st with cur_bucket_key := req.bucket_key, cur_seqnum := req.seq_num }
  else st

/-- Folding a sequence of `/assets_uploaded` requests over the state. -/
def runUploads {A : Type} (st : AssetState A) :
    List NexusPostAssetsUploadedRequest → AssetState A
  | [] => st
  | r :: rs => runUploads (post_assets_uploaded st r) rs

/-- The sequence numbers of the requests accepted (`seq_num > cur_seqnum`
at arrival time) along a run of `/assets_uploaded` calls. -/
def acceptedSeqs {A : Type} (st : AssetState A) :
    List NexusPostAssetsUploadedRequest → List Nat
  | [] => []
  | r :: rs =>
    if r.seq_num > st.cur_seqnum then
      r.seq_num :: acceptedSeqs (post_assets_uploaded st r) rs
    else acceptedSeqs st rs

/-- The asset-handling prefix of `post_pass1_handler`
(`ttpedia_nexusserver.rs:179-201`): merge the request's `assets_json`
into `cur_assets` (the `.expect("parse and no conflicts")` panic on
failure is modelled as `none`), serialize the merged set, and — under the
current always-update policy (`if true`, lines 196-201) — hand out
`preserve_assets = next_proposed_seqnum` and increment the counter.
Returns the updated state, the serialized `pass2_assets` and the
`preserve_assets` value. -/
def post_pass1_assets {A : Type} (merge : A → String → Except Unit A)
    (save : A → String) (st : AssetState A) (assets_json : String) :
    Option (AssetState A × String × Option Nat) :=
  match merge st.cur_assets assets_json with
  | .error _ => none
  | .ok merged =>
    let st := { st with cur_assets := merged }
    let pass2_assets := save st.cur_assets
    let preserve_assets := some st.next_proposed_seqnum
    some ({ st with next_proposed_seqnum := st.next_proposed_seqnum + 1 },
      pass2_assets, preserve_assets)

/-- One operation against the Nexus asset state: a `/pass1` call (its
`assets_json` payload) or an `/assets_uploaded` call. -/
inductive NexusOp where
  | pass1 (assets_json : String)
  | assetsUploaded (seq_num : Nat) (bucket_key : String)
deriving DecidableEq

/-- Executes one operation on the pair of the asset state and the (ghost)
list of `preserve_assets` values handed out so far. A `/pass1` whose merge
panics leaves the sequence-number fields untouched (the handler dies
before reaching them). -/
def execOp {A : Type} (merge : A → String → Except Unit A) (save : A → String)
    (s : AssetState A × List Nat) : NexusOp → AssetState A × List Nat
  | .pass1 j =>
    match post_pass1_assets merge save s.1 j with
    | none => s
    | some (st', _, pres) => (st', s.2 ++ pres.toList)
  | .assetsUploaded n k => (post_assets_uploaded s.1 ⟨n, k⟩, s.2)

/-- Executes a list of operations in order. -/
def execOps {A : Type} (merge : A → String → Except Unit A) (save : A → String)
    (s : AssetState A × List Nat) : List NexusOp → AssetState A × List Nat
  | [] => s
  | op :: ops => execOps merge save (execOp merge save s op) ops

/-- A list of operations is valid when every `/assets_uploaded` call uses
a `seq_num` that was previously handed out as a `preserve_assets` value. -/
def opsValid {A : Type} (merge : A → String → Except Unit A) (save : A → String)
    (s : AssetState A × List Nat) : List NexusOp → Bool
  | [] => true
  | op :: ops =>
    (match op with
     | .assetsUploaded n _ => s.2.contains n
     | .pass1 _ => true) &&
    opsValid merge save (execOp merge save s op) ops

/-- The sequence-number invariant of the asset state:
`cur_seqnum < next_proposed_seqnum`, and every handed-out
`preserve_assets` value is below `next_proposed_seqnum`. -/
def seqInv {A : Type} (s : AssetState A × List Nat) : Prop :=
  s.1.cur_seqnum < s.1.next_proposed_seqnum ∧
    ∀ n ∈ s.2, n < s.1.next_proposed_seqnum

/-! ## Compiler worker: pass-2 input (`CompileState::pass2`)

`ttpedia_compilerworker.rs:235-265`. -/

/-- `NexusPostPass1Response` (`src/backend/src/lib.rs:29-43`). -/
structure NexusPostPass1Response where
  status : String
  assets_json : String
  resolved_reference_tex : String
  preserve_assets : Option Nat
deriving DecidableEq

/-- `let rrtex = "";` (`ttpedia_compilerworker.rs:254`) — the worker's
placeholder for the resolved-reference TeX, carrying the comment
`// TODO: TeX of resolved reference info`. -/
def pass2_rrtex : String := ""

/-- The pass-2 primary input built by `CompileState::pass2`
(`ttpedia_compilerworker.rs:256-265`): the `format!` template with
`\passonefalse`, into which the worker interpolates `rrtex` (the local
`pass2_rrtex` stub — NOT the response's `resolved_reference_tex`) and the
document content. -/
def pass2_input (_resp : NexusPostPass1Response) (content : String) : String :=
  "\\newif\\ifpassone \\passonefalse \\input\x7bpreamble\x7d\n            " ++
    pass2_rrtex ++ "\n            " ++ content ++
    "\n            \\input\x7bpostamble\x7d\n"

/-- Modelled from the spec: the pass-2 input as §4.2 step 3 describes it —
"construct input with `\passonefalse`, prepended with the
resolved-reference TeX", i.e. the same template with the `/pass1`
response's `resolved_reference_tex` in the `rrtex` slot. Stated only for
comparison with `pass2_input`. -/
def pass2_input_per_spec (resp : NexusPostPass1Response) (content : String) : String :=
  "\\newif\\ifpassone \\passonefalse \\input\x7bpreamble\x7d\n            " ++
    resp.resolved_reference_tex ++ "\n            " ++ content ++
    "\n            \\input\x7bpostamble\x7d\n"

/-! ## Compiler worker: artifact upload (`CompileState::upload_to_bucket`)

`ttpedia_compilerworker.rs:304-428`. The object-store client and the HTTP
transport are external; bucket `put_object_content` outcomes are supplied
as oracles (`assetOk`, `htmlOk`), and a failing `.unwrap()` — a panic that
aborts the pipeline — is modelled by stopping the event trace and
reporting incompletion. The `POST /assets_uploaded` HTTP round-trip is
modelled as succeeding (its own `.expect` failures are transport faults
outside these claims). -/

/-- One observable action of `upload_to_bucket`: an asset object upload,
the `POST /assets_uploaded` notification, or an HTML object upload. -/
inductive UploadEvent where
  | assetUploaded (object : String)
  | nexusNotify (seq_num : Nat) (bucket_key : String)
  | htmlUploaded (object : String)
deriving DecidableEq

/-- The directory scan (`ttpedia_compilerworker.rs:327-343`): with
`preserve_assets` set, names ending `.otf` or `.css` are shared assets;
otherwise names beginning `entry-` are HTML entries. Returns
(assets, htmls) in directory order. -/
def scanFiles (preserve : Option Nat) : List String → List String × List String
  | [] => ([], [])
  | name :: rest =>
    if preserve.isSome && (strEnds ".otf" name || strEnds ".css" name) then
      (name :: (scanFiles preserve rest).1, (scanFiles preserve rest).2)
    else if strBegins "entry-" name then
      ((scanFiles preserve rest).1, name :: (scanFiles preserve rest).2)
    else scanFiles preserve rest

/-- The asset upload loop (`ttpedia_compilerworker.rs:347-371`): each
asset goes to object `<job_id>/<filename>`; a failed upload panics via
`.unwrap()`, ending the run (`false`). -/
def uploadAssets (jobId : String) (assetOk : String → Bool) :
    List String → List UploadEvent × Bool
  | [] => ([], true)
  | a :: rest =>
    let object := jobId ++ "/" ++ a
    if assetOk object then
      (UploadEvent.assetUploaded object :: (uploadAssets jobId assetOk rest).1,
        (uploadAssets jobId assetOk rest).2)
    else ([], false)

/-- The stem of an HTML entry file (`ttpedia_compilerworker.rs:404-410`):
`strip_prefix("entry-").unwrap()`. (The `.unwrap()` cannot fail for files
selected by the scan, which all begin `entry-`.) -/
def htmlStem (name : String) : String :=
  match stripPre "entry-".data name.data with
  | some r => ⟨r⟩
  | none => ""

/-- The HTML upload loop (`ttpedia_compilerworker.rs:403-425`): each entry
goes to object `<doc_id>/<stem>`; a failed upload panics via `.unwrap()`. -/
def uploadHtmls (docId : String) (htmlOk : String → Bool) :
    List String → List UploadEvent × Bool
  | [] => ([], true)
  | h :: rest =>
    let object := docId ++ "/" ++ htmlStem h
    if htmlOk object then
      (UploadEvent.htmlUploaded object :: (uploadHtmls docId htmlOk rest).1,
        (uploadHtmls docId htmlOk rest).2)
    else ([], false)

/-- `CompileState::upload_to_bucket` (`ttpedia_compilerworker.rs:304-428`):
scan the output directory, upload the shared assets, then — if
`preserve_assets` was set — notify the Nexus with
`{seq_num, bucket_key = job_id}`, then upload the HTML entries. Returns
the event trace and whether the pipeline ran to completion; a panic
anywhere stops everything after it. -/
def upload_to_bucket (files : List String) (preserve : Option Nat)
    (jobId docId : String) (assetOk htmlOk : String → Bool) :
    List UploadEvent × Bool :=
  let assets := (scanFiles preserve files).1
  let htmls := (scanFiles preserve files).2
  let aev := (uploadAssets jobId assetOk assets).1
  if (uploadAssets jobId assetOk assets).2 then
    let nev := match preserve with
      | some seq => [UploadEvent.nexusNotify seq jobId]
      | none => []
    (aev ++ nev ++ (uploadHtmls docId htmlOk htmls).1,
      (uploadHtmls docId htmlOk htmls).2)
  else (aev, false)

/-! ## Repo server: `post_submit_handler`

`ttpedia_reposerver.rs:114-181`. The samod document id parser, the CRDT
repo lookup and the document hydration are external; they enter as
oracles. -/

/-- An opaque samod `DocumentId` (base58check); its structure is external. -/
def DocId : Type := String

/-- The outcome of `repo.find(doc_id).await`
(`ttpedia_reposerver.rs:133-145`): `Ok(Some(_))`, `Ok(None)` or `Err(_)`. -/
inductive RepoFind where
  | ok
  | missing
  | err
deriving DecidableEq

/-- A job enqueued to Faktory (`Job::new("compile", vec![doc_id, content])`,
`ttpedia_reposerver.rs:173`). -/
structure FaktoryJob where
  name : String
  args : List String
deriving DecidableEq

/-- `post_submit_handler` (`ttpedia_reposerver.rs:114-181`): returns the
response's `status` string and the list of jobs enqueued. `parse` models
`req.doc_id.parse::<DocumentId>()`, `find` models `repo.find(..)`, and
`hydrate` models the `with_document` content extraction (`None` when the
root map has no text `content`). -/
def post_submit (parse : String → Option DocId) (find : DocId → RepoFind)
    (hydrate : DocId → Option String) (doc_id : String) :
    String × List FaktoryJob :=
  match parse doc_id with
  | none => ("illegal document ID " ++ doc_id, [])
  | some d =>
    match find d with
    | .missing => ("document " ++ doc_id ++ " not found", [])
    | .err => ("server shutting down", [])
    | .ok =>
      match hydrate d with
      | none => ("malformatted document " ++ doc_id, [])
      | some content => ("ok", [⟨"compile", [doc_id, content]⟩])

/-! ## Helper lemmas -/

/-- A character list is a `isPrefixOf`-prefix of itself extended on the
right. -/
theorem isPrefixOf_append_self (l r : List Char) : l.isPrefixOf (l ++ r) = true := by
  induction l with
  | nil => simp [List.isPrefixOf]
  | cons a as ih => simp [List.isPrefixOf, ih]

/-- Every string begins with itself, whatever follows. -/
theorem strBegins_append_self (s t : String) : strBegins s (s ++ t) = true :=
  isPrefixOf_append_self s.data t.data

/-- The empty string is a prefix of everything. -/
theorem strBegins_empty (s : String) : strBegins "" s = true := by
  simp [strBegins, List.isPrefixOf]

/-- `splitZero` never returns the empty list of chunks. -/
theorem splitZero_ne_nil : ∀ l : List Nat, splitZero l ≠ [] := by
  intro l
  match l with
  | [] => simp [splitZero]
  | 0 :: rest => simp [splitZero]
  | (b + 1) :: rest =>
    simp only [splitZero]
    cases h : splitZero rest <;> simp

/-- A zero-free byte string splits into a single chunk: itself. -/
theorem splitZero_no_zero : ∀ l : List Nat, 0 ∉ l → splitZero l = [l] := by
  intro l
  induction l with
  | nil => intro _; rfl
  | cons a as ih =>
    intro h
    match a, h with
    | 0, h => exact absurd (List.mem_cons_self 0 as) h
    | b + 1, h =>
      have has : 0 ∉ as := fun hm => h (List.mem_cons_of_mem _ hm)
      simp only [splitZero, ih has]

/-- Splitting a byte string that starts with a zero-free chunk followed by
a separator peels off exactly that chunk. -/
theorem splitZero_append_zero : ∀ (xs ys : List Nat), 0 ∉ xs →
    splitZero (xs ++ 0 :: ys) = xs :: splitZero ys := by
  intro xs
  induction xs with
  | nil => intro ys _; rfl
  | cons a as ih =>
    intro ys h
    match a, h with
    | 0, h => exact absurd (List.mem_cons_self 0 as) h
    | b + 1, h =>
      have has : 0 ∉ as := fun hm => h (List.mem_cons_of_mem _ hm)
      simp only [List.cons_append, splitZero, List.append_eq, ih ys has]

/-- Reading back the key just written returns the value just written. -/
theorem dbGet_dbPut_same : ∀ (db : Db) (k v : List Nat), dbGet (dbPut db k v) k = some v := by
  intro db k v
  induction db with
  | nil => simp [dbPut, dbGet]
  | cons p rest ih =>
    by_cases h : p.1 = k
    · simp [dbPut, dbGet, h]
    · simp [dbPut, dbGet, h, ih]

/-- Processing a concatenation of line lists is sequential processing. -/
theorem processLines_append (store : Store) (ms1 ms2 : List Metadatum) :
    ∀ st, processLines store st (ms1 ++ ms2) =
      processLines store (processLines store st ms1) ms2 := by
  induction ms1 with
  | nil => intro st; rfl
  | cons m ms ih => intro st; simp only [List.cons_append, List.append_eq, processLines, ih]

/-- `current_entry` after the loop is the fold of the `Output` lines. -/
theorem processLines_current_entry (store : Store) :
    ∀ (ms : List Metadatum) (st : Pass1St),
      (processLines store st ms).current_entry = curEntryAfter st.current_entry ms := by
  intro ms
  induction ms with
  | nil => intro st; rfl
  | cons m ms ih =>
    intro st
    cases m <;> simp [processLines, processLine, curEntryAfter, ih]

/-- The loop only appends to the emitted `rrtex` lines. -/
theorem processLines_lines_mono (store : Store) :
    ∀ (ms : List Metadatum) (st : Pass1St) (x : RRLine),
      x ∈ st.lines → x ∈ (processLines store st ms).lines := by
  intro ms
  induction ms with
  | nil => intro st x hx; exact hx
  | cons m ms ih =>
    intro st x hx
    apply ih
    cases m with
    | indexRef index entry flags =>
      show x ∈ st.lines ++ refLines store index entry flags
      exact List.mem_append.mpr (Or.inl hx)
    | indexDef index entry fragment => exact hx
    | indexText index entry tex atplain => exact hx
    | output o => exact hx

/-- Every `IndexRef` line in the request makes its `refLines` appear in
the emitted output. -/
theorem processLines_ref_emits (store : Store) :
    ∀ (ms : List Metadatum) (st : Pass1St) (index entry : String) (flags : Nat)
      (x : RRLine), Metadatum.indexRef index entry flags ∈ ms →
      x ∈ refLines store index entry flags →
      x ∈ (processLines store st ms).lines := by
  intro ms
  induction ms with
  | nil => intro st index entry flags x h _; exact absurd h (List.not_mem_nil _)
  | cons m ms ih =>
    intro st index entry flags x hmem hx
    rcases List.mem_cons.mp hmem with heq | htail
    · subst heq
      refine processLines_lines_mono store ms _ x ?_
      show x ∈ st.lines ++ refLines store index entry flags
      exact List.mem_append.mpr (Or.inr hx)
    · exact ih _ index entry flags x htail hx

/-- If a request contains no further `IndexDef` for a key, the staged
`entry` field for that key survives the rest of the loop (later
`IndexText` lines only touch the text fields). -/
theorem processLines_entry_frozen (store : Store) (index entry : String) :
    ∀ (ms : List Metadatum) (st : Pass1St) (v : IndexValue),
      (∀ f, Metadatum.indexDef index entry f ∉ ms) →
      st.defs ⟨index, entry⟩ = some v →
      ∃ v', (processLines store st ms).defs ⟨index, entry⟩ = some v' ∧
        v'.entry = v.entry := by
  intro ms
  induction ms with
  | nil => intro st v _ hv; exact ⟨v, hv, rfl⟩
  | cons m ms ih =>
    intro st v hnd hv
    have hnd' : ∀ f, Metadatum.indexDef index entry f ∉ ms :=
      fun f hf => hnd f (List.mem_cons_of_mem _ hf)
    cases m with
    | indexRef i e fl => exact ih _ v hnd' hv
    | output o => exact ih _ v hnd' hv
    | indexDef i e f =>
      by_cases hk : (⟨i, e⟩ : IndexKey) = ⟨index, entry⟩
      · exfalso
        simp only [IndexKey.mk.injEq] at hk
        obtain ⟨h1, h2⟩ := hk
        subst h1; subst h2
        exact hnd f (List.mem_cons_self _ _)
      · refine ih _ v hnd' ?_
        have hne : (⟨index, entry⟩ : IndexKey) ≠ ⟨i, e⟩ := fun h => hk h.symm
        simpa [processLine, setDefs, hne] using hv
    | indexText i e tx ap =>
      by_cases hk : (⟨i, e⟩ : IndexKey) = ⟨index, entry⟩
      · simp only [IndexKey.mk.injEq] at hk
        obtain ⟨h1, h2⟩ := hk
        subst h1; subst h2
        have hstep : (processLine store st (Metadatum.indexText i e tx ap)).defs
            ⟨i, e⟩ = some { v with atplain := some ap, tex := some tx } := by
          simp [processLine, setDefs, hv]
        obtain ⟨v', hv', he'⟩ := ih _ _ hnd' hstep
        exact ⟨v', hv', he'⟩
      · refine ih _ v hnd' ?_
        have hne : (⟨index, entry⟩ : IndexKey) ≠ ⟨i, e⟩ := fun h => hk h.symm
        simpa [processLine, setDefs, hne] using hv

/-- If a request contains no `IndexDef` for a key, every staged value for
that key keeps unset `entry` and `fragment` fields. -/
theorem processLines_no_def_defless (store : Store) (index entry : String) :
    ∀ (ms : List Metadatum) (st : Pass1St),
      (∀ f, Metadatum.indexDef index entry f ∉ ms) →
      (∀ v, st.defs ⟨index, entry⟩ = some v → v.entry = none ∧ v.fragment = none) →
      ∀ v, (processLines store st ms).defs ⟨index, entry⟩ = some v →
        v.entry = none ∧ v.fragment = none := by
  intro ms
  induction ms with
  | nil => intro st _ hp v hv; exact hp v hv
  | cons m ms ih =>
    intro st hnd hp
    have hnd' : ∀ f, Metadatum.indexDef index entry f ∉ ms :=
      fun f hf => hnd f (List.mem_cons_of_mem _ hf)
    cases m with
    | indexRef i e fl => exact ih _ hnd' hp
    | output o => exact ih _ hnd' hp
    | indexDef i e f =>
      by_cases hk : (⟨i, e⟩ : IndexKey) = ⟨index, entry⟩
      · exfalso
        simp only [IndexKey.mk.injEq] at hk
        obtain ⟨h1, h2⟩ := hk
        subst h1; subst h2
        exact hnd f (List.mem_cons_self _ _)
      · refine ih _ hnd' ?_
        have hne : (⟨index, entry⟩ : IndexKey) ≠ ⟨i, e⟩ := fun h => hk h.symm
        intro v hv
        refine hp v ?_
        simpa [processLine, setDefs, hne] using hv
    | indexText i e tx ap =>
      by_cases hk : (⟨i, e⟩ : IndexKey) = ⟨index, entry⟩
      · simp only [IndexKey.mk.injEq] at hk
        obtain ⟨h1, h2⟩ := hk
        subst h1; subst h2
        refine ih _ hnd' ?_
        intro v hv
        have hv' : v = { (st.defs ⟨i, e⟩).getD IndexValue.dflt with
            atplain := some ap, tex := some tx } := by
          have hq := hv
          simp [processLine, setDefs] at hq
          exact hq.symm
        cases hd : st.defs ⟨i, e⟩ with
        | none => subst hv'; simp [hd, IndexValue.dflt]
        | some v0 =>
          obtain ⟨he0, hf0⟩ := hp v0 hd
          subst hv'; simp [hd, he0, hf0]
      · refine ih _ hnd' ?_
        have hne : (⟨index, entry⟩ : IndexKey) ≠ ⟨i, e⟩ := fun h => hk h.symm
        intro v hv
        refine hp v ?_
        simpa [processLine, setDefs, hne] using hv

/-- If a request contains no `IndexText` for a key, every staged value for
that key keeps unset `atplain` and `tex` fields. -/
theorem processLines_no_text_textless (store : Store) (index entry : String) :
    ∀ (ms : List Metadatum) (st : Pass1St),
      (∀ tx ap, Metadatum.indexText index entry tx ap ∉ ms) →
      (∀ v, st.defs ⟨index, entry⟩ = some v → v.atplain = none ∧ v.tex = none) →
      ∀ v, (processLines store st ms).defs ⟨index, entry⟩ = some v →
        v.atplain = none ∧ v.tex = none := by
  intro ms
  induction ms with
  | nil => intro st _ hp v hv; exact hp v hv
  | cons m ms ih =>
    intro st hnt hp
    have hnt' : ∀ tx ap, Metadatum.indexText index entry tx ap ∉ ms :=
      fun tx ap hf => hnt tx ap (List.mem_cons_of_mem _ hf)
    cases m with
    | indexRef i e fl => exact ih _ hnt' hp
    | output o => exact ih _ hnt' hp
    | indexText i e tx ap =>
      by_cases hk : (⟨i, e⟩ : IndexKey) = ⟨index, entry⟩
      · exfalso
        simp only [IndexKey.mk.injEq] at hk
        obtain ⟨h1, h2⟩ := hk
        subst h1; subst h2
        exact hnt tx ap (List.mem_cons_self _ _)
      · refine ih _ hnt' ?_
        have hne : (⟨index, entry⟩ : IndexKey) ≠ ⟨i, e⟩ := fun h => hk h.symm
        intro v hv
        refine hp v ?_
        simpa [processLine, setDefs, hne] using hv
    | indexDef i e f =>
      by_cases hk : (⟨i, e⟩ : IndexKey) = ⟨index, entry⟩
      · simp only [IndexKey.mk.injEq] at hk
        obtain ⟨h1, h2⟩ := hk
        subst h1; subst h2
        refine ih _ hnt' ?_
        intro v hv
        have hv' : v = { (st.defs ⟨i, e⟩).getD IndexValue.dflt with
            entry := some st.current_entry, fragment := some f } := by
          have hq := hv
          simp [processLine, setDefs] at hq
          exact hq.symm
        cases hd : st.defs ⟨i, e⟩ with
        | none => subst hv'; simp [hd, IndexValue.dflt]
        | some v0 =>
          obtain ⟨he0, hf0⟩ := hp v0 hd
          subst hv'; simp [hd, he0, hf0]
      · refine ih _ hnt' ?_
        have hne : (⟨index, entry⟩ : IndexKey) ≠ ⟨i, e⟩ := fun h => hk h.symm
        intro v hv
        refine hp v ?_
        simpa [processLine, setDefs, hne] using hv

/-- A key staged at some point stays staged for the rest of the loop. -/
theorem processLines_stays_some (store : Store) (index entry : String) :
    ∀ (ms : List Metadatum) (st : Pass1St),
      st.defs ⟨index, entry⟩ ≠ none →
      (processLines store st ms).defs ⟨index, entry⟩ ≠ none := by
  intro ms
  induction ms with
  | nil => intro st h; exact h
  | cons m ms ih =>
    intro st h
    refine ih _ ?_
    cases m with
    | indexRef i e fl => exact h
    | output o => exact h
    | indexDef i e f =>
      by_cases hk : (⟨index, entry⟩ : IndexKey) = ⟨i, e⟩
      · simp [processLine, setDefs, hk]
      · simpa [processLine, setDefs, hk] using h
    | indexText i e tx ap =>
      by_cases hk : (⟨index, entry⟩ : IndexKey) = ⟨i, e⟩
      · simp [processLine, setDefs, hk]
      · simpa [processLine, setDefs, hk] using h

/-- An `IndexText` line in the request leaves its key staged at the end of
the loop. -/
theorem processLines_text_some (store : Store) (index entry tx ap : String) :
    ∀ (ms : List Metadatum) (st : Pass1St),
      Metadatum.indexText index entry tx ap ∈ ms →
      (processLines store st ms).defs ⟨index, entry⟩ ≠ none := by
  intro ms
  induction ms with
  | nil => intro st h; exact absurd h (List.not_mem_nil _)
  | cons m ms ih =>
    intro st hmem
    rcases List.mem_cons.mp hmem with heq | htail
    · subst heq
      refine processLines_stays_some store index entry ms _ ?_
      simp [processLine, setDefs]
    · exact ih _ htail

/-- An `IndexDef` line in the request leaves its key staged at the end of
the loop. -/
theorem processLines_def_some (store : Store) (index entry f : String) :
    ∀ (ms : List Metadatum) (st : Pass1St),
      Metadatum.indexDef index entry f ∈ ms →
      (processLines store st ms).defs ⟨index, entry⟩ ≠ none := by
  intro ms
  induction ms with
  | nil => intro st h; exact absurd h (List.not_mem_nil _)
  | cons m ms ih =>
    intro st hmem
    rcases List.mem_cons.mp hmem with heq | htail
    · subst heq
      refine processLines_stays_some store index entry ms _ ?_
      simp [processLine, setDefs]
    · exact ih _ htail

/-- `runUploads` never decreases `cur_seqnum`. -/
theorem runUploads_mono {A : Type} :
    ∀ (rs : List NexusPostAssetsUploadedRequest) (st : AssetState A),
      st.cur_seqnum ≤ (runUploads st rs).cur_seqnum := by
  intro rs
  induction rs with
  | nil => intro st; exact le_refl _
  | cons r rs ih =>
    intro st
    refine le_trans ?_ (ih (post_assets_uploaded st r))
    by_cases h : r.seq_num > st.cur_seqnum
    · simp [post_assets_uploaded, h]
      exact le_of_lt h
    · simp [post_assets_uploaded, h]

/-- Raising the base of a `foldr max` to a larger value is the same as
taking `max` with that value afterwards. -/
theorem foldr_max_raise_base :
    ∀ (L : List Nat) (a b : Nat), a ≤ b → max b (L.foldr max a) = L.foldr max b := by
  intro L
  induction L with
  | nil =>
    intro a b h
    simpa [List.foldr] using Nat.max_eq_left h
  | cons x L ih =>
    intro a b h
    show max b (max x (L.foldr max a)) = max x (L.foldr max b)
    rw [← ih a b h]
    exact max_left_comm b x (L.foldr max a)

/-- After a run of `/assets_uploaded` calls, `cur_seqnum` is the maximum
of the starting value and the accepted sequence numbers. -/
theorem runUploads_foldr {A : Type} :
    ∀ (rs : List NexusPostAssetsUploadedRequest) (st : AssetState A),
      (runUploads st rs).cur_seqnum = (acceptedSeqs st rs).foldr max st.cur_seqnum := by
  intro rs
  induction rs with
  | nil => intro st; rfl
  | cons r rs ih =>
    intro st
    by_cases h : r.seq_num > st.cur_seqnum
    · have ha : acceptedSeqs st (r :: rs) =
          r.seq_num :: acceptedSeqs (post_assets_uploaded st r) rs := by
        simp [acceptedSeqs, h]
      have hc : (post_assets_uploaded st r).cur_seqnum = r.seq_num := by
        simp [post_assets_uploaded, h]
      show (runUploads (post_assets_uploaded st r) rs).cur_seqnum = _
      rw [ih, ha, hc]
      show (acceptedSeqs (post_assets_uploaded st r) rs).foldr max r.seq_num =
        max r.seq_num ((acceptedSeqs (post_assets_uploaded st r) rs).foldr max st.cur_seqnum)
      exact (foldr_max_raise_base _ st.cur_seqnum r.seq_num (le_of_lt h)).symm
    · have hp : post_assets_uploaded st r = st := by
        simp [post_assets_uploaded, h]
      have ha : acceptedSeqs st (r :: rs) = acceptedSeqs st rs := by
        simp [acceptedSeqs, h]
      show (runUploads (post_assets_uploaded st r) rs).cur_seqnum = _
      rw [hp, ih, ha]

/-- Claim C2: a `POST /assets_uploaded` with `seq_num > cur_seqnum`
replaces `cur_seqnum` and `cur_bucket_key`; otherwise the whole asset
state is unchanged. Consequently, over any sequence of such calls,
`cur_seqnum` is non-decreasing and equals the maximum of its starting
value and the accepted calls' sequence numbers (from the initial state,
`cur_seqnum = 0`, that is the maximum accepted `seq_num`). -/
theorem C2_assets_uploaded {A : Type} (st : AssetState A)
    (req : NexusPostAssetsUploadedRequest) (rs : List NexusPostAssetsUploadedRequest) :
    (req.seq_num > st.cur_seqnum →
      post_assets_uploaded st req =
        { st with cur_seqnum := req.seq_num, cur_bucket_key := req.bucket_key })
    ∧ (¬ req.seq_num > st.cur_seqnum → post_assets_uploaded st req = st)
    ∧ st.cur_seqnum ≤ (runUploads st rs).cur_seqnum
    ∧ (runUploads st rs).cur_seqnum = (acceptedSeqs st rs).foldr max st.cur_seqnum := by
  refine ⟨?_, ?_, runUploads_mono rs st, runUploads_foldr rs st⟩
  · intro h; simp [post_assets_uploaded, h]
  · intro h; simp [post_assets_uploaded, h]

/-- Witness for C2 at concrete states and requests. -/
theorem C2_assets_uploaded_witness :
    ((3 : Nat) > (initAssetState (0 : Nat)).cur_seqnum ∧
      post_assets_uploaded (initAssetState (0 : Nat)) ⟨3, "b"⟩ =
        { initAssetState (0 : Nat) with cur_seqnum := 3, cur_bucket_key := "b" })
    ∧ (¬ (2 : Nat) > ({ initAssetState (0 : Nat) with cur_seqnum := 3 }).cur_seqnum ∧
      post_assets_uploaded { initAssetState (0 : Nat) with cur_seqnum := 3 } ⟨2, "c"⟩ =
        { initAssetState (0 : Nat) with cur_seqnum := 3 })
    ∧ (initAssetState (0 : Nat)).cur_seqnum ≤
        (runUploads (initAssetState (0 : Nat)) [⟨2, "x"⟩, ⟨1, "y"⟩, ⟨5, "z"⟩]).cur_seqnum
    ∧ (runUploads (initAssetState (0 : Nat)) [⟨2, "x"⟩, ⟨1, "y"⟩, ⟨5, "z"⟩]).cur_seqnum =
        (acceptedSeqs (initAssetState (0 : Nat)) [⟨2, "x"⟩, ⟨1, "y"⟩, ⟨5, "z"⟩]).foldr max
          (initAssetState (0 : Nat)).cur_seqnum := by
  refine ⟨⟨by decide, ?_⟩, ⟨by decide, ?_⟩, ?_, ?_⟩
  · exact (C2_assets_uploaded (initAssetState 0) ⟨3, "b"⟩ []).1 (by decide)
  · exact (C2_assets_uploaded { initAssetState 0 with cur_seqnum := 3 } ⟨2, "c"⟩ []).2.1 (by decide)
  · exact (C2_assets_uploaded (initAssetState 0) ⟨9, "w"⟩ [⟨2, "x"⟩, ⟨1, "y"⟩, ⟨5, "z"⟩]).2.2.1
  · exact (C2_assets_uploaded (initAssetState 0) ⟨9, "w"⟩ [⟨2, "x"⟩, ⟨1, "y"⟩, ⟨5, "z"⟩]).2.2.2

/-- Claim C6: four index-value fields, given as UTF-8 strings none of
whose encodings contain the byte `0x00`, survive the write/read round
trip exactly: the value written under the binary index key reads back
unchanged, and splitting it on `0x00` recovers precisely the four
fields. -/
theorem C6_index_value_roundtrip (db : Db) (i en e f p t : String)
    (he : 0 ∉ strBytes e) (hf : 0 ∉ strBytes f) (hp : 0 ∉ strBytes p)
    (ht : 0 ∉ strBytes t) :
    splitZero (encodeIndexValue (strBytes e) (strBytes f) (strBytes p) (strBytes t)) =
      [strBytes e, strBytes f, strBytes p, strBytes t]
    ∧ dbGet (dbPut db (encodeIndexKey (strBytes i) (strBytes en))
        (encodeIndexValue (strBytes e) (strBytes f) (strBytes p) (strBytes t)))
        (encodeIndexKey (strBytes i) (strBytes en)) =
      some (encodeIndexValue (strBytes e) (strBytes f) (strBytes p) (strBytes t)) := by
  constructor
  · unfold encodeIndexValue
    simp only [List.append_assoc, List.cons_append]
    rw [splitZero_append_zero _ _ he, splitZero_append_zero _ _ hf,
      splitZero_append_zero _ _ hp, splitZero_no_zero _ ht]
  · exact dbGet_dbPut_same db _ _

/-- Witness for C6 at concrete field values. -/
theorem C6_index_value_roundtrip_witness :
    (0 ∉ strBytes "doc1") ∧ (0 ∉ strBytes "#frag") ∧ (0 ∉ strBytes "plain") ∧
    (0 ∉ strBytes "\\TeX") ∧
    (splitZero (encodeIndexValue (strBytes "doc1") (strBytes "#frag")
        (strBytes "plain") (strBytes "\\TeX")) =
      [strBytes "doc1", strBytes "#frag", strBytes "plain", strBytes "\\TeX"]
    ∧ dbGet (dbPut [] (encodeIndexKey (strBytes "idx") (strBytes "ent"))
        (encodeIndexValue (strBytes "doc1") (strBytes "#frag")
          (strBytes "plain") (strBytes "\\TeX")))
        (encodeIndexKey (strBytes "idx") (strBytes "ent")) =
      some (encodeIndexValue (strBytes "doc1") (strBytes "#frag")
        (strBytes "plain") (strBytes "\\TeX"))) :=
  ⟨by decide, by decide, by decide, by decide,
    C6_index_value_roundtrip [] "idx" "ent" "doc1" "#frag" "plain" "\\TeX"
      (by decide) (by decide) (by decide) (by decide)⟩

/-- Claim C9: a `POST /submit` whose `doc_id` parses but names a document
absent from the repo answers with status `document <doc_id> not found`
and enqueues no compile job. -/
theorem C9_submit_not_found (parse : String → Option DocId) (find : DocId → RepoFind)
    (hydrate : DocId → Option String) (doc_id : String) (d : DocId)
    (hparse : parse doc_id = some d) (hmiss : find d = RepoFind.missing) :
    post_submit parse find hydrate doc_id =
      ("document " ++ doc_id ++ " not found", []) := by
  simp [post_submit, hparse, hmiss]

/-- Witness for C9 at a concrete request. -/
theorem C9_submit_not_found_witness :
    ((fun _ : String => some ("AAAA" : DocId)) "AAAA" = some ("AAAA" : DocId))
    ∧ ((fun _ : DocId => RepoFind.missing) ("AAAA" : DocId) = RepoFind.missing)
    ∧ post_submit (fun _ => some ("AAAA" : DocId)) (fun _ => RepoFind.missing)
        (fun _ => none) "AAAA" = ("document AAAA not found", []) := by
  refine ⟨rfl, rfl, ?_⟩
  have h := C9_submit_not_found (fun _ => some ("AAAA" : DocId))
    (fun _ => RepoFind.missing) (fun _ => none) "AAAA" ("AAAA" : DocId) rfl rfl
  exact h.trans (by decide)

/-- Claim C1 (code bug): the worker's pass-2 engine input interpolates the
hardcoded empty `rrtex` stub and ignores the `/pass1` response's
`resolved_reference_tex`: at a response carrying resolved TeX `"RESOLVED"`,
the constructed input equals the spec-described input for an EMPTY
resolved-reference text and differs from the spec-described input for the
response actually received. -/
theorem C1_pass2_ignores_resolved_tex :
    pass2_input ⟨"ok", "ASSETS", "RESOLVED", some 1⟩ "BODY" =
      pass2_input_per_spec ⟨"ok", "ASSETS", "", some 1⟩ "BODY"
    ∧ pass2_input ⟨"ok", "ASSETS", "RESOLVED", some 1⟩ "BODY" ≠
      pass2_input_per_spec ⟨"ok", "ASSETS", "RESOLVED", some 1⟩ "BODY" :=
  ⟨by decide, by decide⟩

/-- Claim C8 (code bug): a `/pass1` whose `assets_json` conflicts with the
current merged `cur_assets` makes the handler panic in
`.expect("parse and no conflicts")` — modelled as producing no response at
all — instead of failing with an `AssetConflict` error response. -/
theorem C8_asset_conflict_panics {A : Type} (merge : A → String → Except Unit A)
    (save : A → String) (st : AssetState A) (assets_json : String)
    (hconf : merge st.cur_assets assets_json = Except.error ()) :
    post_pass1_assets merge save st assets_json = none := by
  simp [post_pass1_assets, hconf]

/-- Witness for C8 at a concrete conflicting merge. -/
theorem C8_asset_conflict_panics_witness :
    ((fun (_ : Nat) (_ : String) => (Except.error () : Except Unit Nat))
        (initAssetState (0 : Nat)).cur_assets "conflicting" = Except.error ())
    ∧ post_pass1_assets (fun (_ : Nat) (_ : String) => (Except.error () : Except Unit Nat))
        (fun _ => "") (initAssetState (0 : Nat)) "conflicting" = none :=
  ⟨rfl, C8_asset_conflict_panics _ _ _ _ rfl⟩

/-- Claim C4: for every `IndexRef` line processed by `/pass1`, with
`NeedsLoc` set the emitted `**loc` line's brace body is the stored entry
field followed by the stored fragment field, defaulting to `"ENTRYREF"`
and `""` when missing or empty — in particular a never-defined key yields
exactly `ENTRYREF` — and with `NeedsText` set the `**text tex` and
`**text plain` lines carry the stored tex and plain fields, defaulting to
the literal entry name. -/
theorem C4_indexref_defaults (store : Store) (ms : List Metadatum)
    (index entry : String) (flags : Nat)
    (href : Metadatum.indexRef index entry flags ∈ ms) :
    (flags &&& needsLoc ≠ 0 →
      RRLine.loc index entry
        (maybe_slice_to_str_or_default ((store ⟨index, entry⟩).map StoredVal.entry) "ENTRYREF" ++
          maybe_slice_to_str_or_default ((store ⟨index, entry⟩).map StoredVal.fragment) "")
        ∈ (pass1Xrefs store ms).1)
    ∧ (flags &&& needsLoc ≠ 0 → store ⟨index, entry⟩ = none →
      RRLine.loc index entry "ENTRYREF" ∈ (pass1Xrefs store ms).1)
    ∧ (flags &&& needsText ≠ 0 →
      RRLine.textTex index entry
        (maybe_slice_to_str_or_default ((store ⟨index, entry⟩).map StoredVal.tex) entry)
        ∈ (pass1Xrefs store ms).1
      ∧ RRLine.textPlain index entry
        (maybe_slice_to_str_or_default ((store ⟨index, entry⟩).map StoredVal.atplain) entry)
        ∈ (pass1Xrefs store ms).1) := by
  refine ⟨?_, ?_, ?_⟩
  · intro hloc
    refine processLines_ref_emits store ms _ index entry flags _ href ?_
    simp [refLines, hloc]
  · intro hloc hnone
    refine processLines_ref_emits store ms _ index entry flags _ href ?_
    have hb : ("ENTRYREF" ++ "" : String) = "ENTRYREF" := by decide
    simp [refLines, hloc, hnone, maybe_slice_to_str_or_default, hb]
  · intro htext
    constructor
    · refine processLines_ref_emits store ms _ index entry flags _ href ?_
      simp [refLines, htext]
    · refine processLines_ref_emits store ms _ index entry flags _ href ?_
      simp [refLines, htext]

/-- Witness for C4: a defined key under a populated store, and a
never-defined key under the empty store. -/
theorem C4_indexref_defaults_witness :
    ((3 : Nat) &&& needsLoc ≠ 0)
    ∧ ((3 : Nat) &&& needsText ≠ 0)
    ∧ RRLine.loc "idx" "e" "doc#f" ∈
        (pass1Xrefs
          (fun k => if k = ⟨"idx", "e"⟩ then some ⟨"doc", "#f", "pl", "tx"⟩ else none)
          [Metadatum.indexRef "idx" "e" 3]).1
    ∧ (RRLine.textTex "idx" "e" "tx" ∈
        (pass1Xrefs
          (fun k => if k = ⟨"idx", "e"⟩ then some ⟨"doc", "#f", "pl", "tx"⟩ else none)
          [Metadatum.indexRef "idx" "e" 3]).1
      ∧ RRLine.textPlain "idx" "e" "pl" ∈
        (pass1Xrefs
          (fun k => if k = ⟨"idx", "e"⟩ then some ⟨"doc", "#f", "pl", "tx"⟩ else none)
          [Metadatum.indexRef "idx" "e" 3]).1)
    ∧ RRLine.loc "idx" "never" "ENTRYREF" ∈
        (pass1Xrefs emptyStore [Metadatum.indexRef "idx" "never" needsLoc]).1 := by
  refine ⟨by decide, by decide, ?_, ?_, ?_⟩
  · exact (C4_indexref_defaults
      (fun k => if k = ⟨"idx", "e"⟩ then some ⟨"doc", "#f", "pl", "tx"⟩ else none)
      [Metadatum.indexRef "idx" "e" 3] "idx" "e" 3 (by simp)).1 (by decide)
  · exact (C4_indexref_defaults
      (fun k => if k = ⟨"idx", "e"⟩ then some ⟨"doc", "#f", "pl", "tx"⟩ else none)
      [Metadatum.indexRef "idx" "e" 3] "idx" "e" 3 (by simp)).2.2 (by decide)
  · exact (C4_indexref_defaults emptyStore [Metadatum.indexRef "idx" "never" needsLoc]
      "idx" "never" needsLoc (by simp)).2.1 (by decide) rfl

/-- Claim C10: an index write staged by `/pass1` replaces the whole
four-field value of its key: a request with an `IndexText` but no
`IndexDef` for a key commits empty entry and fragment fields (whatever the
store previously held), and symmetrically a request with an `IndexDef` but
no `IndexText` commits empty plain and tex fields. -/
theorem C10_staged_write_replaces_value (store : Store) (ms : List Metadatum)
    (index entry : String) :
    ((∃ tx ap, Metadatum.indexText index entry tx ap ∈ ms) →
      (∀ f, Metadatum.indexDef index entry f ∉ ms) →
      ∃ sv, (pass1Xrefs store ms).2 ⟨index, entry⟩ = some sv ∧
        sv.entry = "" ∧ sv.fragment = "")
    ∧ ((∃ f, Metadatum.indexDef index entry f ∈ ms) →
      (∀ tx ap, Metadatum.indexText index entry tx ap ∉ ms) →
      ∃ sv, (pass1Xrefs store ms).2 ⟨index, entry⟩ = some sv ∧
        sv.atplain = "" ∧ sv.tex = "") := by
  constructor
  · rintro ⟨tx, ap, htext⟩ hnd
    have hsome := processLines_text_some store index entry tx ap ms
      ⟨"", fun _ => none, []⟩ htext
    cases hd : (processLines store ⟨"", fun _ => none, []⟩ ms).defs ⟨index, entry⟩ with
    | none => exact absurd hd hsome
    | some v =>
      have hprop := processLines_no_def_defless store index entry ms _ hnd
        (fun v hv => by simp at hv) v hd
      refine ⟨freeze v, ?_, ?_, ?_⟩
      · show commitDefs store (processLines store ⟨"", fun _ => none, []⟩ ms).defs
          ⟨index, entry⟩ = some (freeze v)
        simp [commitDefs, hd]
      · simp [freeze, hprop.1]
      · simp [freeze, hprop.2]
  · rintro ⟨f, hdef⟩ hnt
    have hsome := processLines_def_some store index entry f ms
      ⟨"", fun _ => none, []⟩ hdef
    cases hd : (processLines store ⟨"", fun _ => none, []⟩ ms).defs ⟨index, entry⟩ with
    | none => exact absurd hd hsome
    | some v =>
      have hprop := processLines_no_text_textless store index entry ms _ hnt
        (fun v hv => by simp at hv) v hd
      refine ⟨freeze v, ?_, ?_, ?_⟩
      · show commitDefs store (processLines store ⟨"", fun _ => none, []⟩ ms).defs
          ⟨index, entry⟩ = some (freeze v)
        simp [commitDefs, hd]
      · simp [freeze, hprop.1]
      · simp [freeze, hprop.2]

/-- Witness for C10: a text-only request overwriting a fully populated
stored value, and a def-only request doing the same. -/
theorem C10_staged_write_replaces_value_witness :
    ((∃ tx ap, Metadatum.indexText "i" "e" tx ap ∈ [Metadatum.indexText "i" "e" "T" "P"])
      ∧ (∀ f, Metadatum.indexDef "i" "e" f ∉ [Metadatum.indexText "i" "e" "T" "P"])
      ∧ ∃ sv, (pass1Xrefs
          (fun k => if k = ⟨"i", "e"⟩ then some ⟨"olddoc", "#old", "oldp", "oldt"⟩ else none)
          [Metadatum.indexText "i" "e" "T" "P"]).2 ⟨"i", "e"⟩ = some sv ∧
        sv.entry = "" ∧ sv.fragment = "")
    ∧ ((∃ f, Metadatum.indexDef "i" "e" f ∈
          [Metadatum.output "entry-d.html", Metadatum.indexDef "i" "e" "#frag"])
      ∧ (∀ tx ap, Metadatum.indexText "i" "e" tx ap ∉
          [Metadatum.output "entry-d.html", Metadatum.indexDef "i" "e" "#frag"])
      ∧ ∃ sv, (pass1Xrefs
          (fun k => if k = ⟨"i", "e"⟩ then some ⟨"olddoc", "#old", "oldp", "oldt"⟩ else none)
          [Metadatum.output "entry-d.html", Metadatum.indexDef "i" "e" "#frag"]).2
            ⟨"i", "e"⟩ = some sv ∧
        sv.atplain = "" ∧ sv.tex = "") := by
  constructor
  · refine ⟨⟨"T", "P", by simp⟩, by simp, ?_⟩
    exact (C10_staged_write_replaces_value
      (fun k => if k = ⟨"i", "e"⟩ then some ⟨"olddoc", "#old", "oldp", "oldt"⟩ else none)
      [Metadatum.indexText "i" "e" "T" "P"] "i" "e").1 ⟨"T", "P", by simp⟩ (by simp)
  · refine ⟨⟨"#frag", by simp⟩, by simp, ?_⟩
    exact (C10_staged_write_replaces_value
      (fun k => if k = ⟨"i", "e"⟩ then some ⟨"olddoc", "#old", "oldp", "oldt"⟩ else none)
      [Metadatum.output "entry-d.html", Metadatum.indexDef "i" "e" "#frag"] "i" "e").2
      ⟨"#frag", by simp⟩ (by simp)

/-- Claim C3 counterexample: within a single `/pass1` request, an
`IndexRef` reads the database transaction, which does not yet contain the
same request's staged `IndexDef`s (they are committed only after the line
loop). In the request `[Output entry-foo.html, IndexDef idx e frag,
IndexRef idx e NeedsLoc]` the `IndexDef` is processed while
`current_entry` holds the stem `foo`, yet the later `IndexRef` of the
same request yields a `**loc` body of `ENTRYREF`, which does not begin
with `foo` — contradicting the claim's "including an IndexRef appearing
later in the same request's pedia_txt". -/
theorem C3_same_request_counterexample :
    curEntryAfter "" [Metadatum.output "entry-foo.html"] = "foo"
    ∧ (pass1Xrefs emptyStore
        [Metadatum.output "entry-foo.html",
          Metadatum.indexDef "idx" "e" "frag",
          Metadatum.indexRef "idx" "e" needsLoc]).1 =
      [RRLine.loc "idx" "e" "ENTRYREF"]
    ∧ strBegins "foo" "ENTRYREF" = false :=
  ⟨by decide, by decide, by decide⟩

/-- Claim C3 (corrected): if a `/pass1` request stages an `IndexDef` for
`(index, entry)` while `current_entry` holds the stem `S` and no later
`IndexDef` of the same request overwrites that key, then any `IndexRef`
for the key with `NeedsLoc` in a SUBSEQUENT request (run against the
committed store) yields a `**loc` line whose brace body begins with `S`. -/
theorem C3_later_request_loc (store : Store) (pre post msB : List Metadatum)
    (index entry frag S : String) (flagsB : Nat)
    (hS : curEntryAfter "" pre = S)
    (hpost : ∀ f, Metadatum.indexDef index entry f ∉ post)
    (href : Metadatum.indexRef index entry flagsB ∈ msB)
    (hloc : flagsB &&& needsLoc ≠ 0) :
    ∃ body, RRLine.loc index entry body ∈
        (pass1Xrefs
          (pass1Xrefs store (pre ++ Metadatum.indexDef index entry frag :: post)).2
          msB).1
      ∧ strBegins S body = true := by
  have hcur : (processLines store ⟨"", fun _ => none, []⟩ pre).current_entry = S := by
    rw [processLines_current_entry store pre ⟨"", fun _ => none, []⟩]
    exact hS
  have hdef : (processLine store (processLines store ⟨"", fun _ => none, []⟩ pre)
      (Metadatum.indexDef index entry frag)).defs ⟨index, entry⟩ =
      some ({ ((processLines store ⟨"", fun _ => none, []⟩ pre).defs
          ⟨index, entry⟩).getD IndexValue.dflt with
        entry := some (processLines store ⟨"", fun _ => none, []⟩ pre).current_entry,
        fragment := some frag }) := by
    simp [processLine, setDefs]
  obtain ⟨v', hv', he'⟩ := processLines_entry_frozen store index entry post _ _ hpost hdef
  have hstore1 : (pass1Xrefs store
      (pre ++ Metadatum.indexDef index entry frag :: post)).2 ⟨index, entry⟩ =
      some (freeze v') := by
    show commitDefs store
      (processLines store ⟨"", fun _ => none, []⟩
        (pre ++ Metadatum.indexDef index entry frag :: post)).defs
      ⟨index, entry⟩ = some (freeze v')
    rw [processLines_append]
    show commitDefs store
      (processLines store
        (processLine store (processLines store ⟨"", fun _ => none, []⟩ pre)
          (Metadatum.indexDef index entry frag)) post).defs ⟨index, entry⟩ = _
    simp [commitDefs, hv']
  have hentry : (freeze v').entry = S := by
    rw [← hcur]
    simp [freeze, he']
  refine ⟨maybe_slice_to_str_or_default
      (((pass1Xrefs store (pre ++ Metadatum.indexDef index entry frag :: post)).2
        ⟨index, entry⟩).map StoredVal.entry) "ENTRYREF" ++
    maybe_slice_to_str_or_default
      (((pass1Xrefs store (pre ++ Metadatum.indexDef index entry frag :: post)).2
        ⟨index, entry⟩).map StoredVal.fragment) "", ?_, ?_⟩
  · refine processLines_ref_emits _ msB _ index entry flagsB _ href ?_
    simp [refLines, hloc]
  · rw [hstore1]
    by_cases hSe : S = ""
    · subst hSe; exact strBegins_empty _
    · have hm : maybe_slice_to_str_or_default
          ((some (freeze v')).map StoredVal.entry) "ENTRYREF" = S := by
        simp [maybe_slice_to_str_or_default, hentry, hSe]
      rw [hm]
      exact strBegins_append_self S _

/-- Witness for the corrected C3: a def under stem `foo` in one request,
a `NeedsLoc` ref in the next. -/
theorem C3_later_request_loc_witness :
    curEntryAfter "" [Metadatum.output "entry-foo.html"] = "foo"
    ∧ (∀ f, Metadatum.indexDef "idx" "e" f ∉ ([] : List Metadatum))
    ∧ Metadatum.indexRef "idx" "e" needsLoc ∈ [Metadatum.indexRef "idx" "e" needsLoc]
    ∧ needsLoc &&& needsLoc ≠ 0
    ∧ ∃ body, RRLine.loc "idx" "e" body ∈
        (pass1Xrefs
          (pass1Xrefs emptyStore
            ([Metadatum.output "entry-foo.html"] ++
              Metadatum.indexDef "idx" "e" "frag" :: [])).2
          [Metadatum.indexRef "idx" "e" needsLoc]).1
      ∧ strBegins "foo" body = true := by
  refine ⟨by decide, by simp, by simp, by decide, ?_⟩
  exact C3_later_request_loc emptyStore [Metadatum.output "entry-foo.html"] []
    [Metadatum.indexRef "idx" "e" needsLoc] "idx" "e" "frag" "foo" needsLoc
    (by decide) (by simp) (by simp) (by decide)

/-- The sequence-number invariant is preserved along any valid run of
Nexus operations. -/
theorem execOps_seqInv {A : Type} (merge : A → String → Except Unit A)
    (save : A → String) :
    ∀ (ops : List NexusOp) (s : AssetState A × List Nat),
      seqInv s → opsValid merge save s ops = true →
      seqInv (execOps merge save s ops) := by
  intro ops
  induction ops with
  | nil => intro s h _; exact h
  | cons op ops ih =>
    intro s hinv hval
    simp only [opsValid, Bool.and_eq_true] at hval
    refine ih _ ?_ hval.2
    obtain ⟨hlt, hiss⟩ := hinv
    cases op with
    | pass1 j =>
      cases hm : merge s.1.cur_assets j with
      | error e =>
        have hstep : execOp merge save s (NexusOp.pass1 j) = s := by
          simp [execOp, post_pass1_assets, hm]
        rw [hstep]
        exact ⟨hlt, hiss⟩
      | ok m =>
        constructor
        · show (execOp merge save s (NexusOp.pass1 j)).1.cur_seqnum <
            (execOp merge save s (NexusOp.pass1 j)).1.next_proposed_seqnum
          simp [execOp, post_pass1_assets, hm]
          exact Nat.lt_succ_of_lt hlt
        · intro n hn
          simp only [execOp, post_pass1_assets, hm] at hn ⊢
          simp only [Option.toList_some, List.mem_append, List.mem_singleton] at hn
          rcases hn with hn | hn
          · exact Nat.lt_succ_of_lt (hiss n hn)
          · subst hn; exact Nat.lt_succ_self _
    | assetsUploaded n k =>
      have hn : n ∈ s.2 := by simpa using hval.1
      constructor
      · show (post_assets_uploaded s.1 ⟨n, k⟩).cur_seqnum <
          (post_assets_uploaded s.1 ⟨n, k⟩).next_proposed_seqnum
        by_cases h : n > s.1.cur_seqnum
        · simp only [post_assets_uploaded, if_pos h]
          exact hiss n hn
        · simp only [post_assets_uploaded, if_neg h]
          exact hlt
      · intro x hx
        show x < (post_assets_uploaded s.1 ⟨n, k⟩).next_proposed_seqnum
        by_cases h : n > s.1.cur_seqnum
        · simp only [post_assets_uploaded, if_pos h]
          exact hiss x hx
        · simp only [post_assets_uploaded, if_neg h]
          exact hiss x hx

/-- Claim C5: starting from the initial asset state
(`cur_seqnum = 0`, `next_proposed_seqnum = 1`), any sequence of `/pass1`
operations and `/assets_uploaded` operations whose `seq_num` was
previously handed out preserves `cur_seqnum < next_proposed_seqnum`
(together with the bound on all handed-out values); and every successful
`/pass1` returns `preserve_assets = Some(n)` for `n` the pre-call
`next_proposed_seqnum`, incrementing the counter by one. -/
theorem C5_seqnum_invariant {A : Type} (merge : A → String → Except Unit A)
    (save : A → String) (a : A) (ops : List NexusOp)
    (hvalid : opsValid merge save (initAssetState a, []) ops = true) :
    seqInv (execOps merge save (initAssetState a, []) ops)
    ∧ ∀ (st : AssetState A) (j : String) (m : A),
        merge st.cur_assets j = Except.ok m →
        post_pass1_assets merge save st j =
          some ({ st with cur_assets := m, next_proposed_seqnum := st.next_proposed_seqnum + 1 },
            save m, some st.next_proposed_seqnum) := by
  constructor
  · refine execOps_seqInv merge save ops _ ⟨?_, ?_⟩ hvalid
    · exact Nat.zero_lt_one
    · intro n hn; exact absurd hn (List.not_mem_nil _)
  · intro st j m hm
    simp [post_pass1_assets, hm]

/-- Witness for C5 at a concrete run: one `/pass1`, then the
`/assets_uploaded` acknowledging the handed-out sequence number 1. -/
theorem C5_seqnum_invariant_witness :
    (opsValid (fun (a : Nat) (_ : String) => (Except.ok (a + 1) : Except Unit Nat))
      (fun _ => "") (initAssetState (0 : Nat), ([] : List Nat))
      [NexusOp.pass1 "x", NexusOp.assetsUploaded 1 "k"] = true)
    ∧ seqInv (execOps (fun (a : Nat) (_ : String) => (Except.ok (a + 1) : Except Unit Nat))
        (fun _ => "") (initAssetState (0 : Nat), [])
        [NexusOp.pass1 "x", NexusOp.assetsUploaded 1 "k"])
    ∧ post_pass1_assets (fun (a : Nat) (_ : String) => (Except.ok (a + 1) : Except Unit Nat))
        (fun _ => "") (initAssetState (0 : Nat)) "x" =
      some ({ initAssetState (0 : Nat) with cur_assets := 1, next_proposed_seqnum := 2 },
        "", some 1) := by
  have h := C5_seqnum_invariant
    (fun (a : Nat) (_ : String) => (Except.ok (a + 1) : Except Unit Nat))
    (fun _ => "") 0 [NexusOp.pass1 "x", NexusOp.assetsUploaded 1 "k"] (by decide)
  exact ⟨by decide, h.1, h.2 (initAssetState 0) "x" 1 rfl⟩

/-- If some asset in the list fails to upload, the asset loop reports
failure and its event trace consists of asset uploads only. -/
theorem uploadAssets_fail (jobId : String) (assetOk : String → Bool) :
    ∀ (l : List String), (∃ a ∈ l, assetOk (jobId ++ "/" ++ a) = false) →
      (uploadAssets jobId assetOk l).2 = false ∧
      ∀ e ∈ (uploadAssets jobId assetOk l).1,
        ∃ o, e = UploadEvent.assetUploaded o := by
  intro l
  induction l with
  | nil =>
    rintro ⟨a, ha, _⟩
    exact absurd ha (List.not_mem_nil _)
  | cons x rest ih =>
    rintro ⟨a, ha, hf⟩
    by_cases hx : assetOk (jobId ++ "/" ++ x) = true
    · rcases List.mem_cons.mp ha with rfl | hmem
      · rw [hx] at hf; exact absurd hf (by simp)
      · obtain ⟨h2, hall⟩ := ih ⟨a, hmem, hf⟩
        constructor
        · simp [uploadAssets, hx, h2]
        · intro e he
          simp only [uploadAssets, hx, if_true, List.mem_cons] at he
          rcases he with he | he
          · exact ⟨jobId ++ "/" ++ x, he⟩
          · exact hall e he
    · have hx' : assetOk (jobId ++ "/" ++ x) = false := by
        revert hx; cases assetOk (jobId ++ "/" ++ x) <;> simp
      constructor
      · simp [uploadAssets, hx']
      · intro e he
        simp [uploadAssets, hx'] at he

/-- Claim C7 counterexample: with output files `[a.css, entry-x.html]`,
`preserve_assets = Some 1` and every asset upload failing, the worker's
upload phase produces NO events: it indeed never calls
`POST /assets_uploaded`, but — contrary to the claim — it also performs
no HTML entry upload (the `.unwrap()` panic aborts the pipeline before
the HTML loop). -/
theorem C7_asset_failure_counterexample :
    (scanFiles (some 1) ["a.css", "entry-x.html"]).1 = ["a.css"]
    ∧ (scanFiles (some 1) ["a.css", "entry-x.html"]).2 = ["entry-x.html"]
    ∧ upload_to_bucket ["a.css", "entry-x.html"] (some 1) "j" "d"
        (fun _ => false) (fun _ => true) = ([], false)
    ∧ ¬ ∃ o, UploadEvent.htmlUploaded o ∈
        (upload_to_bucket ["a.css", "entry-x.html"] (some 1) "j" "d"
          (fun _ => false) (fun _ => true)).1 := by
  refine ⟨by decide, by decide, by decide, ?_⟩
  rintro ⟨o, ho⟩
  have hr : (upload_to_bucket ["a.css", "entry-x.html"] (some 1) "j" "d"
      (fun _ => false) (fun _ => true)).1 = [] := by decide
  rw [hr] at ho
  exact absurd ho (List.not_mem_nil _)

/-- Claim C7 (corrected): in a job where some shared-asset bucket upload
fails, the worker neither calls `POST /assets_uploaded` nor uploads any
HTML entry — the panic aborts the whole upload phase. -/
theorem C7_asset_failure_aborts (files : List String) (preserve : Option Nat)
    (jobId docId : String) (assetOk htmlOk : String → Bool) (a : String)
    (ha : a ∈ (scanFiles preserve files).1)
    (hfail : assetOk (jobId ++ "/" ++ a) = false) :
    (∀ s k, UploadEvent.nexusNotify s k ∉
      (upload_to_bucket files preserve jobId docId assetOk htmlOk).1)
    ∧ ∀ o, UploadEvent.htmlUploaded o ∉
      (upload_to_bucket files preserve jobId docId assetOk htmlOk).1 := by
  obtain ⟨hdone, hall⟩ := uploadAssets_fail jobId assetOk _ ⟨a, ha, hfail⟩
  have hrun : upload_to_bucket files preserve jobId docId assetOk htmlOk =
      ((uploadAssets jobId assetOk (scanFiles preserve files).1).1, false) := by
    simp [upload_to_bucket, hdone]
  constructor
  · intro s k hmem
    rw [hrun] at hmem
    obtain ⟨o, ho⟩ := hall _ hmem
    exact UploadEvent.noConfusion ho
  · intro o hmem
    rw [hrun] at hmem
    obtain ⟨o', ho'⟩ := hall _ hmem
    exact UploadEvent.noConfusion ho'

/-- Witness for the corrected C7 at the concrete failing job. -/
theorem C7_asset_failure_aborts_witness :
    ("a.css" ∈ (scanFiles (some 1) ["a.css", "entry-x.html"]).1)
    ∧ ((fun _ : String => false) ("j" ++ "/" ++ "a.css") = false)
    ∧ ((∀ s k, UploadEvent.nexusNotify s k ∉
        (upload_to_bucket ["a.css", "entry-x.html"] (some 1) "j" "d"
          (fun _ => false) (fun _ => true)).1)
      ∧ ∀ o, UploadEvent.htmlUploaded o ∉
        (upload_to_bucket ["a.css", "entry-x.html"] (some 1) "j" "d"
          (fun _ => false) (fun _ => true)).1) :=
  ⟨by decide, rfl,
    C7_asset_failure_aborts ["a.css", "entry-x.html"] (some 1) "j" "d"
      (fun _ => false) (fun _ => true) "a.css" (by decide) rfl⟩
